import Mathlib

/-!
Verification of the servie-lambda transport: a shallow embedding of the
AWS Lambda handler in `src/index.ts` (event translation, invocation
control with the `didRespond` completion guard, and result translation)
together with the older generation of the same file that inlines
`finalhandler` and `mapError` (part_003 of the repository sources).

Bytes are modelled as natural numbers below 256 (`List Nat`), strings as
Lean `String`.  Collaborator behaviour that is not part of this
repository (Node's base64/utf8 codecs, the servie response object's
body-derived headers, the bit-string-mask casing function) is modelled
in dedicated definitions whose doc comments say exactly what they model.
-/

set_option autoImplicit false

namespace ServieLambda

/-! ### Base64 codec

Model of Node's `Buffer.from(s, "base64")` / `buf.toString("base64")`.
Node's base64 decoder is lenient: characters outside the alphabet are
skipped, `=` terminates a group, and a trailing lone sextet is dropped.
-/

/-- Value of one base64 alphabet character (standard and url-safe
alphabets, as accepted by Node); `none` for padding and foreign
characters, which Node's decoder skips. -/
def sextetOf (c : Char) : Option Nat :=
  let n := c.toNat
  if 65 ≤ n ∧ n ≤ 90 then some (n - 65)
  else if 97 ≤ n ∧ n ≤ 122 then some (n - 71)
  else if 48 ≤ n ∧ n ≤ 57 then some (n + 4)
  else if c = '+' ∨ c = '-' then some 62
  else if c = '/' ∨ c = '_' then some 63
  else none

/-- Character of a sextet value (standard alphabet). -/
def tbl (n : Nat) : Char :=
  if n < 26 then Char.ofNat (65 + n)
  else if n < 52 then Char.ofNat (97 + (n - 26))
  else if n < 62 then Char.ofNat (48 + (n - 52))
  else if n = 62 then '+'
  else '/'

/-- Encode a byte list as base64 characters, three bytes at a time, with
`=` padding, following RFC 4648 as implemented by Node's
`buf.toString("base64")`. -/
def b64EncodeBytes : List Nat → List Char
  | a :: b :: c :: rest =>
      tbl (a / 4) :: tbl ((a % 4) * 16 + b / 16) ::
      tbl ((b % 16) * 4 + c / 64) :: tbl (c % 64) :: b64EncodeBytes rest
  | [a, b] =>
      [tbl (a / 4), tbl ((a % 4) * 16 + b / 16), tbl ((b % 16) * 4), '=']
  | [a] =>
      [tbl (a / 4), tbl ((a % 4) * 16), '=', '=']
  | [] => []

/-- Node's `buf.toString("base64")`. -/
def base64Encode (bytes : List Nat) : String :=
  String.mk (b64EncodeBytes bytes)

/-- Recombine a stream of sextets into bytes, four sextets at a time; a
trailing pair yields one byte, a trailing triple two bytes, and a lone
trailing sextet is dropped, matching Node's decoder. -/
def b64DecodeSextets : List Nat → List Nat
  | s1 :: s2 :: s3 :: s4 :: rest =>
      (s1 * 4 + s2 / 16) :: ((s2 % 16) * 16 + s3 / 4) ::
      ((s3 % 4) * 64 + s4) :: b64DecodeSextets rest
  | [s1, s2, s3] => [s1 * 4 + s2 / 16, (s2 % 16) * 16 + s3 / 4]
  | [s1, s2] => [s1 * 4 + s2 / 16]
  | [_] => []
  | [] => []

/-- Node's `Buffer.from(s, "base64")`: skip foreign characters, then
recombine the sextets.  Total on every string. -/
def base64Decode (s : String) : List Nat :=
  b64DecodeSextets (s.data.filterMap sextetOf)

/-! ### UTF-8 codec

Model of Node's `Buffer.from(s, "utf8")` and `buf.toString("utf8")`.
-/

/-- UTF-8 encoding of one unicode scalar value. -/
def utf8EncodeChar (c : Char) : List Nat :=
  let n := c.toNat
  if n < 128 then [n]
  else if n < 2048 then [192 + n / 64, 128 + n % 64]
  else if n < 65536 then [224 + n / 4096, 128 + (n / 64) % 64, 128 + n % 64]
  else [240 + n / 262144, 128 + (n / 4096) % 64, 128 + (n / 64) % 64, 128 + n % 64]

/-- Node's `Buffer.from(s, "utf8")`: the UTF-8 bytes of the string. -/
def utf8Encode (s : String) : List Nat :=
  (s.data.map utf8EncodeChar).flatten

/-- The unicode replacement character, produced for malformed input. -/
def repl : Char := Char.ofNat 65533

/-- Turn a decoded scalar value into a `Char`, replacing surrogate or
out-of-range values. -/
def scalarChar (n : Nat) : Char :=
  if 55296 ≤ n ∧ n < 57344 then repl
  else if n ≥ 1114112 then repl
  else Char.ofNat n

/-- Whether a byte is a UTF-8 continuation byte. -/
def isCont (b : Nat) : Bool := 128 ≤ b ∧ b < 192

/-- Classify a lead byte: either a complete character (an ASCII byte, or
the replacement character for a stray continuation or invalid lead) or
the start of a multi-byte sequence as a pair of how many continuation
bytes are still needed and the accumulated high bits. -/
def startByte (b : Nat) : Sum Char (Nat × Nat) :=
  if b < 128 then Sum.inl (scalarChar b)
  else if b < 194 then Sum.inl repl
  else if b < 224 then Sum.inr (1, b - 192)
  else if b < 240 then Sum.inr (2, b - 224)
  else if b < 245 then Sum.inr (3, b - 240)
  else Sum.inl repl

/-- Streaming UTF-8 decoder: the state is the pending multi-byte
sequence, if any.  A malformed sequence yields the replacement character
and the offending byte is reprocessed as a lead byte, the behaviour of
Node's `buf.toString("utf8")`. -/
def utf8DecodeAux : Option (Nat × Nat) → List Nat → List Char
  | none, [] => []
  | some _, [] => [repl]
  | none, b :: bs =>
      match startByte b with
      | Sum.inl c => c :: utf8DecodeAux none bs
      | Sum.inr st => utf8DecodeAux (some st) bs
  | some (need, acc), b :: bs =>
      if isCont b then
        if need ≤ 1 then scalarChar (acc * 64 + (b - 128)) :: utf8DecodeAux none bs
        else utf8DecodeAux (some (need - 1, acc * 64 + (b - 128))) bs
      else
        repl :: (match startByte b with
                 | Sum.inl c => c :: utf8DecodeAux none bs
                 | Sum.inr st => utf8DecodeAux (some st) bs)

/-- Node's `buf.toString("utf8")`. -/
def utf8Decode (bytes : List Nat) : String :=
  String.mk (utf8DecodeAux none bytes)

/-! ### Data model: platform event, errors, normalized request/response -/

/-- Value stored under one key of a flattened headers object, mirroring
the TypeScript union `string | string[]` of `Headers.asObject()` and of
the `Result` headers field in `src/index.ts`. -/
inductive HVal
  | single (v : String)
  | multi (vs : List String)
deriving DecidableEq

/-- AWS Lambda proxy event, from the `Event` declaration of
`src/index.ts`.  Object-or-null fields are `Option`; the nested
`requestContext.identity.sourceIp` is flattened to `sourceIp`; the
`resource` and `pathParameters` fields are omitted because `createHandler`
never reads them. -/
structure Event where
  path : String
  httpMethod : String
  body : Option String
  isBase64Encoded : Bool
  headers : Option (List (String × String))
  queryStringParameters : Option (List (String × String))
  sourceIp : String
deriving DecidableEq

/-- JavaScript `Error` value as the handler observes it: a message, the
optional `status` property read by the error mapper, and the optional
`stack` string. -/
structure Err where
  message : String
  status : Option Nat := none
  stack : Option String := none
deriving DecidableEq

/-- JavaScript `String(err)` for an `Error` value. -/
def errString (e : Err) : String := "Error: " ++ e.message

/-- Modelled from the spec: subset of Node's `http.STATUS_CODES` table
used by the error mapper of part_003 for its production-mode bodies. -/
def STATUS_CODES (n : Nat) : Option String :=
  if n = 500 then some "Internal Server Error"
  else if n = 404 then some "Not Found"
  else if n = 400 then some "Bad Request"
  else none

/-- Node's `url.format({pathname, query})` as used in `createHandler`:
the path followed by the serialized query string, nothing when the query
object is null or empty.  Percent-encoding is not modelled; no claim
exercises it. -/
def urlFormat (pathname : String) (query : Option (List (String × String))) : String :=
  match query with
  | none => pathname
  | some [] => pathname
  | some ps =>
      pathname ++ "?" ++ String.intercalate "&" (ps.map fun kv => kv.1 ++ "=" ++ kv.2)

/-- Decoding of the event's body text, `Buffer.from(event.body,
event.isBase64Encoded ? "base64" : "utf8")` in `createHandler`. -/
def decodeBodyField (isB64 : Bool) (s : String) : List Nat :=
  if isB64 then base64Decode s else utf8Encode s

/-- Normalized request handed to the application middleware
(`LambdaRequest` in `src/index.ts`).  The body holds the decoded bytes
(`none` when the event body is null); `connectionEncrypted` and
`remoteAddress` are the synthetic connection descriptor. -/
structure LambdaRequest where
  method : String
  url : String
  headers : List (String × String)
  body : Option (List Nat)
  connectionEncrypted : Bool
  remoteAddress : String
  started : Bool
  finished : Bool
  bytesTransferred : Nat
deriving DecidableEq

/-- Event Translator (lines 126-151 of `src/index.ts`): build the url,
headers, decoded body and connection descriptor of the normalized
request. -/
def translateEvent (e : Event) : LambdaRequest :=
  { method := e.httpMethod
    url := urlFormat e.path e.queryStringParameters
    headers := e.headers.getD []
    body := e.body.map (decodeBodyField e.isBase64Encoded)
    connectionEncrypted := true
    remoteAddress := e.sourceIp
    started := false
    finished := false
    bytesTransferred := 0 }

/-- Lines 191-194 of `src/index.ts`: before invoking the middleware the
request is marked started and finished and its transferred byte count is
set to the decoded body's length (0 without a body). -/
def markRequest (r : LambdaRequest) : LambdaRequest :=
  { r with
    started := true
    finished := true
    bytesTransferred := (r.body.map List.length).getD 0 }

/-- The request value the application middleware receives. -/
def requestGivenToApp (e : Event) : LambdaRequest :=
  markRequest (translateEvent e)

/-- Normalized response.  `headersObj` models `res.allHeaders.asObject()`:
the response's own headers merged with the headers derived from the body
(content type and length), lowercase keys, array values for repeated
keys.  `body` is the outcome of draining the body to a byte buffer:
`Except.error` models a drain failure. -/
structure Resp where
  statusCode : Nat
  headersObj : List (String × HVal)
  body : Except Err (List Nat)

/-- Modelled from the spec: a servie response built from a string body
carries a plain-text content type and the byte length as content length,
and its drain yields exactly the string's UTF-8 bytes. -/
def Resp.ofText (status : Nat) (s : String) : Resp :=
  { statusCode := status
    headersObj :=
      [("content-type", HVal.single "text/plain"),
       ("content-length", HVal.single (toString (utf8Encode s).length))]
    body := Except.ok (utf8Encode s) }

/-- A response without a body, as built by `new Response({ statusCode })`:
no body-derived headers, empty drained buffer. -/
def Resp.noBody (status : Nat) : Resp :=
  { statusCode := status, headersObj := [], body := Except.ok [] }

/-- Body of the error mapper's substitute response, from `mapError` in
part_003 (lines 134-147): the production-safe status phrase in
production mode, otherwise the error's stack (falling back to
`String(err)`), with empty-string fallback. -/
def mapErrorBody (production : Bool) (e : Err) : String :=
  if production then (STATUS_CODES (e.status.getD 500)).getD ""
  else e.stack.getD (errString e)

/-- Error mapper from part_003 (lines 134-147), response-shaped as the
`errorhandler` of `src/index.ts` consumes it: status from the error's
`status` property defaulting to 500, plain-text body per
`mapErrorBody`. -/
def mapError (production : Bool) (e : Err) : Resp :=
  Resp.ofText (e.status.getD 500) (mapErrorBody production e)

/-- Fallback handler from part_003 (lines 152-159): a 404 response whose
body is the canonical `Cannot METHOD URL` string. -/
def finalhandler (req : LambdaRequest) : Resp :=
  Resp.ofText 404 ("Cannot " ++ req.method ++ " " ++ req.url)

/-- Handler options of `src/index.ts`. -/
structure Options where
  isBinary : Option (Resp → Bool) := none
  production : Bool := false

/-- The effective binary predicate: the injected one, else the default
that returns false for every response
(`options.isBinary || (() => false)`). -/
def effIsBinary (opts : Options) (res : Resp) : Bool :=
  match opts.isBinary with
  | none => false
  | some f => f res

/-! ### Result Translator: header flattening and the platform result -/

/-- ASCII uppercasing of one character, as JavaScript's `toUpperCase`
behaves on the ASCII header names involved. -/
def upPairs : List (Char × Char) :=
  [('a', 'A'), ('b', 'B'), ('c', 'C'), ('d', 'D'), ('e', 'E'), ('f', 'F'),
   ('g', 'G'), ('h', 'H'), ('i', 'I'), ('j', 'J'), ('k', 'K'), ('l', 'L'),
   ('m', 'M'), ('n', 'N'), ('o', 'O'), ('p', 'P'), ('q', 'Q'), ('r', 'R'),
   ('s', 'S'), ('t', 'T'), ('u', 'U'), ('v', 'V'), ('w', 'W'), ('x', 'X'),
   ('y', 'Y'), ('z', 'Z')]

/-- Uppercase an ASCII letter, leave anything else unchanged. -/
def asciiUpper (c : Char) : Char :=
  ((upPairs.find? fun p => p.1 == c).map fun p => p.2).getD c

/-- Apply the bit mask `i` to the characters of a key starting at bit
position `pos`: character `j` is uppercased exactly when bit `j` of `i`
is set. -/
def maskChars (i : Nat) : Nat → List Char → List Char
  | _, [] => []
  | pos, c :: cs => (if Nat.testBit i pos then asciiUpper c else c) :: maskChars i (pos + 1) cs

/-- Modelled from the spec: `mask(key, i)` of the bit-string-mask
package, the case-duplication workaround — the letter-casing of the key
is varied per duplicate occurrence, the bits of the occurrence index
selecting which characters are uppercased.  Pinned by the repository
test part_007: occurrences 0, 1, 2 of `set-cookie` become `set-cookie`,
`Set-cookie`, `sEt-cookie`. -/
def mask (key : String) (i : Nat) : String :=
  String.mk (maskChars i 0 key.data)

/-- The writes produced by the inner loop of `toHeaders` for an
array-valued key: `result[mask(key, i)] = val[i]` for `i` from `start`
upward. -/
def maskWrites (key : String) : Nat → List String → List (String × String)
  | _, [] => []
  | i, v :: vs => (mask key i, v) :: maskWrites key (i + 1) vs

/-- Header flattening of `src/index.ts` (lines 206-223) as the ordered
list of object writes it performs: a single value is written under its
key unchanged, an array value is spread over case-masked variants of the
key. -/
def toHeaders (obj : List (String × HVal)) : List (String × String) :=
  obj.flatMap fun kv =>
    match kv.2 with
    | HVal.single v => [(kv.1, v)]
    | HVal.multi vs => maskWrites kv.1 0 vs

/-- One JavaScript object property write: replace the value in place if
the key exists, else append the new property. -/
def objWrite (o : List (String × String)) (k v : String) : List (String × String) :=
  if o.any fun p => p.1 == k then o.map fun p => if p.1 == k then (k, v) else p
  else o ++ [(k, v)]

/-- The JavaScript object resulting from a list of property writes:
first-write key order, last-write value. -/
def jsObject (writes : List (String × String)) : List (String × String) :=
  writes.foldl (fun o kv => objWrite o kv.1 kv.2) []

/-- Property lookup on a JavaScript object. -/
def jsLookup : List (String × String) → String → Option String
  | [], _ => none
  | p :: o, k => if p.1 = k then some p.2 else jsLookup o k

/-- Platform result (`Result` in `src/index.ts`): status code, flattened
headers object, body string and the base64 flag. -/
structure Result where
  statusCode : Nat
  headers : List (String × String)
  body : String
  isBase64Encoded : Bool
deriving DecidableEq

/-- Result Translator step of `sendResponse` (lines 166-181 of
`src/index.ts`), applied to a response whose drained buffer is `buf`:
flatten the headers, pick base64 or UTF-8 text encoding of the buffer by
the binary predicate, record the flag. -/
def toResult (opts : Options) (res : Resp) (buf : List Nat) : Result :=
  { statusCode := res.statusCode
    headers := jsObject (toHeaders res.headersObj)
    body := if effIsBinary opts res then base64Encode buf else utf8Decode buf
    isBase64Encoded := effIsBinary opts res }

/-! ### Invocation Controller, deterministic single-completion run -/

/-- Settled outcome of the application middleware's promise. -/
inductive AppOutcome
  | ok (res : Resp)
  | err (e : Err)

/-- Application middleware: receives the request and the fallback
continuation, settles with a response or a rejection. -/
def AppFun : Type := LambdaRequest → (Unit → Resp) → AppOutcome

/-- What the returned handler function does with the event: either the
platform callback is invoked — with its error argument (always null in
the code) and result — after logging some errors, or nothing is
delivered. -/
structure HandlerOutput where
  callbackErr : Option Err
  result : Result
  logged : List Err
deriving DecidableEq

/-- Drain-and-deliver step shared by every completion path: drain the
response and translate it; a drain failure re-enters `sendResponse`
through the error mapper (the `.catch` of lines 182), whose plain-text
response always drains.  Each error-mapper invocation logs its error. -/
def drainDeliver (opts : Options) (res : Resp) : Result × List Err :=
  match res.body with
  | Except.ok buf => (toResult opts res buf, [])
  | Except.error de =>
      (toResult opts (mapError opts.production de)
        (utf8Encode (mapErrorBody opts.production de)), [de])

/-- Completion of one invocation from the middleware promise's outcome:
a resolution is delivered as-is, a rejection goes through the error
mapper (logging it) and the substitute response is delivered.  The
callback's error argument is null on every path (lines 196-199 of
`src/index.ts`). -/
def completeOutcome (opts : Options) (out : AppOutcome) : HandlerOutput :=
  match out with
  | AppOutcome.ok res =>
      let d := drainDeliver opts res
      { callbackErr := none, result := d.1, logged := d.2 }
  | AppOutcome.err er =>
      let d := drainDeliver opts (mapError opts.production er)
      { callbackErr := none, result := d.1, logged := er :: d.2 }

/-- The handler of `createHandler` on one event, for a middleware whose
promise settles (no abort): translate the event, mark the request, run
the middleware with the fallback continuation, complete. -/
def handleEvent (app : AppFun) (opts : Options) (e : Event) : HandlerOutput :=
  let req := requestGivenToApp e
  completeOutcome opts (app req fun _ => finalhandler req)

/-- What invoking the middleware function itself can do: return a
(settling) promise, or throw synchronously before any promise exists. -/
inductive SyncOutcome
  | value (out : AppOutcome)
  | thrown (e : Err)

/-- Application middleware including the possibility of a synchronous
throw. -/
def SyncApp : Type := LambdaRequest → (Unit → Resp) → SyncOutcome

/-- The handler including the synchronous-throw path: the call
`Promise.resolve(app(req, finalhandler(req)))` is not wrapped in any
try/catch, so a synchronous throw escapes the handler function itself
(`Except.error`) and the platform callback is never invoked. -/
def handleEventS (app : SyncApp) (opts : Options) (e : Event) : Except Err HandlerOutput :=
  let req := requestGivenToApp e
  match app req fun _ => finalhandler req with
  | SyncOutcome.thrown ex => Except.error ex
  | SyncOutcome.value out => Except.ok (completeOutcome opts out)

/-! ### Multi-value header flattening (the later generation, part_001)

The servie `Headers` collection is modelled as its raw ordered list of
(key, values) entries; `keys()` yields each distinct key once in first
occurrence order and `getAll` concatenates the values of every entry
carrying the key.
-/

/-- All values carried by a key, `headers.getAll(key)`. -/
def getAll (h : List (String × List String)) (k : String) : List String :=
  (h.filter fun p => p.1 == k).flatMap fun p => p.2

/-- The distinct keys in first-occurrence order, `headers.keys()`. -/
def hdrKeys (h : List (String × List String)) : List String :=
  (h.map fun p => p.1).eraseDups

/-- The `toMultiValueHeaders` of part_001 (lines 142-146): one entry per
distinct key, carrying the ordered list of all its values. -/
def toMultiValueHeaders (h : List (String × List String)) : List (String × List String) :=
  (hdrKeys h).map fun k => (k, getAll h k)

/-- Lookup in a multi-value headers object. -/
def mvLookup : List (String × List String) → String → Option (List String)
  | [], _ => none
  | p :: o, k => if p.1 = k then some p.2 else mvLookup o k

/-! ### Completion race model

`sendResponse` runs in two stages separated by an asynchronous
suspension: the synchronous stage reads the `didRespond` guard and
starts draining the body, and the continuation stage — a later microtask
— sets the guard and invokes the platform callback.  Each completion
trigger (middleware resolution, middleware rejection already passed
through the error mapper, abort) is a task; a schedule chooses which
task advances at each point, every schedule corresponding to a
realizable interleaving of the JavaScript microtask queue.  Options are
the defaults here (no binary predicate, non-production). -/
inductive Phase
  /-- `sendResponse(res)` has been called; the guard has not been read. -/
  | check (res : Resp)
  /-- The guard was clear and the drain of `buf` completed; the queued
  continuation will set the guard and invoke the callback. -/
  | deliver (res : Resp) (buf : List Nat)
  /-- Nothing left to do (dropped by the guard, or delivered). -/
  | done

/-- Per-invocation state: the `didRespond` guard, the tasks, and the
results delivered to the platform callback so far, in order. -/
structure Config where
  didRespond : Bool
  tasks : List Phase
  delivered : List Result

/-- Advance task `i` by one stage, following `sendResponse` (lines
158-183 of `src/index.ts`): the check stage returns immediately when
`didRespond` is set, otherwise starts the drain — a failing drain
re-enters `sendResponse` with the error mapper's response; the deliver
stage sets `didRespond`, and hands the translated result to the
callback unconditionally. -/
def step (cfg : Config) (i : Nat) : Config :=
  match cfg.tasks.get? i with
  | some (Phase.check res) =>
      if cfg.didRespond then
        { cfg with tasks := cfg.tasks.set i Phase.done }
      else
        match res.body with
        | Except.ok buf => { cfg with tasks := cfg.tasks.set i (Phase.deliver res buf) }
        | Except.error de => { cfg with tasks := cfg.tasks.set i (Phase.check (mapError false de)) }
  | some (Phase.deliver res buf) =>
      { didRespond := true
        tasks := cfg.tasks.set i Phase.done
        delivered := cfg.delivered ++ [toResult {} res buf] }
  | _ => cfg

/-- Run a schedule. -/
def run (cfg : Config) (sched : List Nat) : Config :=
  sched.foldl step cfg

/-- Initial state for a list of completion triggers, each a response
being passed to `sendResponse`. -/
def initConfig (triggers : List Resp) : Config :=
  { didRespond := false, tasks := triggers.map Phase.check, delivered := [] }

/-! ### Event translation with the primitives' error behaviour explicit -/

/-- Node's `url.format` never throws on a string pathname and an
object-or-null query, so the checked variant always succeeds. -/
def urlFormatE (p : String) (q : Option (List (String × String))) : Except Err String :=
  Except.ok (urlFormat p q)

/-- servie's `createHeaders` accepts null or an object and never throws. -/
def createHeadersE (h : Option (List (String × String))) : Except Err (List (String × String)) :=
  Except.ok (h.getD [])

/-- Node's `Buffer.from(string, "base64" | "utf8")` never throws on a
string input: the base64 decoder is lenient (foreign characters are
skipped) and utf8 encoding is total. -/
def bufferFromE (b64 : Bool) (s : String) : Except Err (List Nat) :=
  Except.ok (decodeBodyField b64 s)

/-- The Event Translator with each primitive's possible exception made
explicit in the `Except` monad: the translation stage of `createHandler`
composed of the checked primitives. -/
def translateEventE (e : Event) : Except Err LambdaRequest := do
  let url ← urlFormatE e.path e.queryStringParameters
  let hdrs ← createHeadersE e.headers
  let body ←
    match e.body with
    | none => Except.ok none
    | some s => (bufferFromE e.isBase64Encoded s).map some
  Except.ok
    { method := e.httpMethod
      url := url
      headers := hdrs
      body := body
      connectionEncrypted := true
      remoteAddress := e.sourceIp
      started := false
      finished := false
      bytesTransferred := 0 }

/-! ### Concrete fixtures from the repository tests -/

/-- The event of the repository tests: `GET /test`, no body, no headers,
no query. -/
def testEvent : Event :=
  { path := "/test"
    httpMethod := "GET"
    body := none
    isBase64Encoded := false
    headers := none
    queryStringParameters := none
    sourceIp := "" }

/-- The rejection used by the error-mapping test: an `Error` with
message `boom` and the stack Node gives it. -/
def boomErr : Err :=
  { message := "boom", status := none, stack := some "Error: boom\n    at app" }

/-- Middleware that falls through to the fallback handler
(`(_req, next) => next()`). -/
def appNext : AppFun := fun _ next => AppOutcome.ok (next ())

/-- Whether the first character list starts the second. -/
def leadsWith : List Char → List Char → Bool
  | [], _ => true
  | _ :: _, [] => false
  | a :: as, b :: bs => a == b && leadsWith as bs

/-- Whether the first character list occurs inside the second. -/
def occursIn (needle : List Char) : List Char → Bool
  | [] => leadsWith needle []
  | c :: cs => leadsWith needle (c :: cs) || occursIn needle cs

/-- Whether one string occurs inside another. -/
def containsStr (hay needle : String) : Bool :=
  occursIn needle.data hay.data

/-- The value the last write to a key left behind, the key's value in
the object built from the writes. -/
def lastWrite : List (String × String) → String → Option String
  | [], _ => none
  | (k', v') :: rest, k =>
      match lastWrite rest k with
      | some v => some v
      | none => if k' = k then some v' else none

/-- A character that is not an ASCII uppercase letter. -/
def noUpperChar (c : Char) : Prop := ¬(65 ≤ c.toNat ∧ c.toNat ≤ 90)

/-- A string without ASCII uppercase letters — the shape of every key of
`Headers.asObject()`, which lowercases header names. -/
def noUpperStr (s : String) : Prop := ∀ c ∈ s.data, noUpperChar c

instance (c : Char) : Decidable (noUpperChar c) := by unfold noUpperChar; infer_instance

instance (s : String) : Decidable (noUpperStr s) := by unfold noUpperStr; infer_instance

/-! ### Lemmas: the base64 codec round-trips byte-exactly -/

theorem sextet_tbl (n : Nat) (h : n < 64) : sextetOf (tbl n) = some n := by
  have H : ∀ m ∈ List.range 64, sextetOf (tbl m) = some m := by decide
  exact H n (List.mem_range.mpr h)

theorem sextetOf_pad : sextetOf '=' = none := by decide

theorem b64_roundtrip :
    ∀ (B : List Nat), (∀ x ∈ B, x < 256) →
      b64DecodeSextets ((b64EncodeBytes B).filterMap sextetOf) = B
  | [], _ => rfl
  | [a], h => by
      have ha : a < 256 := h a (by simp)
      have h1 := sextet_tbl (a / 4) (by omega)
      have h2 := sextet_tbl ((a % 4) * 16) (by omega)
      simp [b64EncodeBytes, List.filterMap_cons, h1, h2, sextetOf_pad, b64DecodeSextets]
      omega
  | [a, b], h => by
      have ha : a < 256 := h a (by simp)
      have hb : b < 256 := h b (by simp)
      have h1 := sextet_tbl (a / 4) (by omega)
      have h2 := sextet_tbl ((a % 4) * 16 + b / 16) (by omega)
      have h3 := sextet_tbl ((b % 16) * 4) (by omega)
      simp [b64EncodeBytes, List.filterMap_cons, h1, h2, h3, sextetOf_pad, b64DecodeSextets]
      constructor <;> omega
  | a :: b :: c :: rest, h => by
      have ha : a < 256 := h a (by simp)
      have hb : b < 256 := h b (by simp)
      have hc : c < 256 := h c (by simp)
      have ih := b64_roundtrip rest fun x hx => h x (by simp [hx])
      have h1 := sextet_tbl (a / 4) (by omega)
      have h2 := sextet_tbl ((a % 4) * 16 + b / 16) (by omega)
      have h3 := sextet_tbl ((b % 16) * 4 + c / 64) (by omega)
      have h4 := sextet_tbl (c % 64) (by omega)
      simp [b64EncodeBytes, List.filterMap_cons, h1, h2, h3, h4, b64DecodeSextets, ih]
      refine ⟨by omega, by omega, by omega⟩

theorem base64_decode_encode (B : List Nat) (h : ∀ x ∈ B, x < 256) :
    base64Decode (base64Encode B) = B :=
  b64_roundtrip B h

/-! ### Lemmas: JavaScript object writes and lookups -/

theorem lookup_map_hit (k v' : String) :
    ∀ o : List (String × String), (o.any fun p => p.1 == k) = true →
      jsLookup (o.map fun p => if p.1 == k then (k, v') else p) k = some v'
  | [], h => by simp at h
  | p :: o, h => by
      by_cases hp : p.1 = k
      · simp [jsLookup, hp]
      · have h' : (o.any fun p => p.1 == k) = true := by
          simpa [hp] using h
        have ih := lookup_map_hit k v' o h'
        simpa [jsLookup, hp] using ih

theorem lookup_map_miss (k' v' k : String) (hk : k ≠ k') :
    ∀ o : List (String × String),
      jsLookup (o.map fun p => if p.1 == k' then (k', v') else p) k = jsLookup o k
  | [] => rfl
  | p :: o => by
      have ih := lookup_map_miss k' v' k hk o
      by_cases hp : p.1 = k'
      · have hne : k' ≠ k := fun h => hk h.symm
        have hpk : p.1 ≠ k := by rw [hp]; exact hne
        simpa [jsLookup, hp, hne, hpk] using ih
      · by_cases hpk : p.1 = k
        · simp [jsLookup, hp, hpk, hk]
        · simpa [jsLookup, hp, hpk] using ih

theorem jsLookup_append (k : String) :
    ∀ xs ys : List (String × String),
      jsLookup (xs ++ ys) k =
        match jsLookup xs k with
        | some v => some v
        | none => jsLookup ys k
  | [], ys => by simp [jsLookup]
  | p :: xs, ys => by
      have ih := jsLookup_append k xs ys
      by_cases hp : p.1 = k
      · simp [jsLookup, hp]
      · simpa [jsLookup, hp] using ih

theorem jsLookup_eq_none (k : String) :
    ∀ o : List (String × String), (∀ p ∈ o, p.1 ≠ k) → jsLookup o k = none
  | [], _ => rfl
  | p :: o, h => by
      have ih := jsLookup_eq_none k o fun q hq => h q (by simp [hq])
      have hp : p.1 ≠ k := h p (by simp)
      simp [jsLookup, hp, ih]

theorem jsLookup_objWrite (o : List (String × String)) (k' v' k : String) :
    jsLookup (objWrite o k' v') k = if k = k' then some v' else jsLookup o k := by
  unfold objWrite
  by_cases hany : (o.any fun p => p.1 == k') = true
  · by_cases hk : k = k'
    · subst hk
      simp only [hany, if_true]
      exact lookup_map_hit k v' o hany
    · simp only [hany, if_true, hk, if_false]
      exact lookup_map_miss k' v' k hk o
  · simp only [hany, Bool.false_eq_true, if_false]
    rw [jsLookup_append]
    by_cases hk : k = k'
    · subst hk
      have hnone : jsLookup o k = none := by
        refine jsLookup_eq_none k o fun p hp hpk => ?_
        exact hany (List.any_eq_true.mpr ⟨p, hp, by simpa using hpk⟩)
      simp [hnone, jsLookup]
    · have htail : jsLookup [(k', v')] k = none := by
        simp [jsLookup, show k' ≠ k from fun h => hk h.symm]
      rw [htail]
      cases jsLookup o k <;> simp [hk]

theorem jsLookup_foldl (k : String) :
    ∀ (ws : List (String × String)) (o : List (String × String)),
      jsLookup (ws.foldl (fun o kv => objWrite o kv.1 kv.2) o) k =
        match lastWrite ws k with
        | some v => some v
        | none => jsLookup o k
  | [], o => by simp [lastWrite]
  | (k₀, v₀) :: ws, o => by
      have ih := jsLookup_foldl k ws (objWrite o k₀ v₀)
      simp only [List.foldl_cons] at ih ⊢
      rw [ih, jsLookup_objWrite]
      cases hw : lastWrite ws k with
      | some v => simp [lastWrite, hw]
      | none =>
          by_cases hk : k₀ = k
          · simp [lastWrite, hw, hk]
          · simp [lastWrite, hw, hk, show ¬(k = k₀) from fun h => hk h.symm]

theorem jsLookup_jsObject (ws : List (String × String)) (k : String) :
    jsLookup (jsObject ws) k = lastWrite ws k := by
  have h := jsLookup_foldl k ws []
  unfold jsObject
  rw [h]
  cases lastWrite ws k <;> simp [jsLookup]

theorem lastWrite_append (ws₁ ws₂ : List (String × String)) (k : String) :
    lastWrite (ws₁ ++ ws₂) k =
      match lastWrite ws₂ k with
      | some v => some v
      | none => lastWrite ws₁ k := by
  induction ws₁ with
  | nil =>
      rw [List.nil_append]
      cases h₂ : lastWrite ws₂ k <;> simp [h₂, lastWrite]
  | cons p ws₁ ih =>
      obtain ⟨k', v'⟩ := p
      rw [List.cons_append]
      simp only [lastWrite]
      rw [ih]
      cases h₂ : lastWrite ws₂ k with
      | some v => rfl
      | none => rfl

theorem lastWrite_eq_none (k : String) :
    ∀ ws : List (String × String), (∀ p ∈ ws, p.1 ≠ k) → lastWrite ws k = none
  | [], _ => rfl
  | (k', v') :: ws, h => by
      have ih := lastWrite_eq_none k ws fun p hp => h p (by simp [hp])
      have hk : k' ≠ k := h (k', v') (by simp)
      simp [lastWrite, ih, hk]

theorem lastWrite_nodup (k v : String) :
    ∀ ws : List (String × String), (ws.map Prod.fst).Nodup → (k, v) ∈ ws →
      lastWrite ws k = some v
  | [], _, hmem => by simp at hmem
  | (k₀, v₀) :: ws, hnd, hmem => by
      simp only [List.map_cons, List.nodup_cons] at hnd
      rcases List.mem_cons.mp hmem with heq | htail
      · injection heq with hk hv
        subst hk; subst hv
        have hnone : lastWrite ws k = none := by
          refine lastWrite_eq_none k ws fun p hp hpk => ?_
          exact hnd.1 (hpk ▸ List.mem_map_of_mem Prod.fst hp)
        simp [lastWrite, hnone]
      · have ih := lastWrite_nodup k v ws hnd.2 htail
        simp [lastWrite, ih]

/-! ### Lemmas: case masking only re-cases letters, so lowercase keys
collide with a masked key only when the underlying keys coincide -/

theorem asciiUpper_cases (c : Char) :
    asciiUpper c = c ∨ (65 ≤ (asciiUpper c).toNat ∧ (asciiUpper c).toNat ≤ 90) := by
  unfold asciiUpper
  cases hf : upPairs.find? fun p => p.1 == c with
  | none => left; rfl
  | some p =>
      right
      have hm : p ∈ upPairs := List.mem_of_find?_eq_some hf
      have hall : ∀ q ∈ upPairs, 65 ≤ q.2.toNat ∧ q.2.toNat ≤ 90 := by decide
      simpa using hall p hm

theorem maskChars_id_of_noUpper (i : Nat) :
    ∀ (cs : List Char) (pos : Nat),
      (∀ c ∈ maskChars i pos cs, noUpperChar c) → maskChars i pos cs = cs
  | [], _, _ => rfl
  | c :: cs, pos, h => by
      have hh : noUpperChar (if Nat.testBit i pos then asciiUpper c else c) :=
        h _ (by simp [maskChars])
      have htail : maskChars i (pos + 1) cs = cs := by
        refine maskChars_id_of_noUpper i cs (pos + 1) fun d hd => h d ?_
        simp [maskChars, hd]
      have hhead : (if Nat.testBit i pos then asciiUpper c else c) = c := by
        by_cases hb : Nat.testBit i pos
        · simp only [hb, if_true]
          rcases asciiUpper_cases c with he | hu
          · exact he
          · have hh' : noUpperChar (asciiUpper c) := by
              simp only [hb, if_true] at hh
              exact hh
            exact absurd hu hh'
        · simp [hb]
      simp [maskChars, hhead, htail]

theorem mask_eq_of_noUpper (k key : String) (i : Nat)
    (hkey : noUpperStr key) (h : mask k i = key) : k = key := by
  have hdata : maskChars i 0 k.data = key.data := congrArg String.data h
  have hid : maskChars i 0 k.data = k.data := by
    refine maskChars_id_of_noUpper i k.data 0 fun c hc => ?_
    exact hkey c (hdata ▸ hc)
  have hkk : k.data = key.data := hid ▸ hdata
  exact congrArg String.mk hkk

/-! ### Lemmas: the writes of an array-valued key -/

theorem maskWrites_mem (key : String) (v : String) :
    ∀ (vs : List String) (j i : Nat), vs.get? i = some v →
      (mask key (j + i), v) ∈ maskWrites key j vs
  | [], _, i, h => by simp at h
  | w :: vs, j, 0, h => by
      simp only [List.get?] at h
      injection h with hv
      subst hv
      simp [maskWrites]
  | w :: vs, j, i + 1, h => by
      simp only [List.get?] at h
      have ih := maskWrites_mem key v vs (j + 1) i h
      have harith : j + 1 + i = j + (i + 1) := by omega
      rw [harith] at ih
      simp [maskWrites, ih]

theorem maskWrites_keys (key : String) :
    ∀ (vs : List String) (j : Nat),
      (maskWrites key j vs).map Prod.fst = (List.range' j vs.length).map (mask key)
  | [], _ => rfl
  | v :: vs, j => by
      have ih := maskWrites_keys key vs (j + 1)
      simp [maskWrites, List.range', ih]

theorem lastWrite_maskWrites_ne (key k : String) (hkey : noUpperStr k) (hne : key ≠ k) :
    ∀ (vs : List String) (j : Nat), lastWrite (maskWrites key j vs) k = none := by
  intro vs j
  refine lastWrite_eq_none k (maskWrites key j vs) fun p hp hpk => ?_
  have hkeys : p.1 ∈ (maskWrites key j vs).map Prod.fst := List.mem_map_of_mem Prod.fst hp
  rw [maskWrites_keys] at hkeys
  obtain ⟨i, _, hmaski⟩ := List.mem_map.mp hkeys
  exact hne (mask_eq_of_noUpper key k i hkey (by rw [hmaski, hpk]))

/-! ### Lemmas: once the guard is set and no drain continuation is
pending, no schedule can deliver anything further -/

theorem step_frozen (cfg : Config) (i : Nat)
    (hd : cfg.didRespond = true)
    (ht : ∀ p ∈ cfg.tasks, ∀ r buf, p ≠ Phase.deliver r buf) :
    (step cfg i).didRespond = true ∧ (step cfg i).delivered = cfg.delivered ∧
      ∀ p ∈ (step cfg i).tasks, ∀ r buf, p ≠ Phase.deliver r buf := by
  unfold step
  cases hg : cfg.tasks.get? i with
  | none => exact ⟨hd, rfl, ht⟩
  | some ph =>
      cases ph with
      | check res =>
          refine ⟨by simp [hd], by simp [hd], fun p hp => ?_⟩
          simp only [hd, if_true] at hp
          rcases List.mem_or_eq_of_mem_set hp with hmem | hdone
          · exact ht p hmem
          · subst hdone; intro r buf h; exact Phase.noConfusion h
      | deliver res buf =>
          have hmem : Phase.deliver res buf ∈ cfg.tasks := List.get?_mem hg
          exact absurd rfl (ht _ hmem res buf)
      | done => exact ⟨hd, rfl, ht⟩

theorem run_frozen :
    ∀ (sched : List Nat) (cfg : Config),
      cfg.didRespond = true →
      (∀ p ∈ cfg.tasks, ∀ r buf, p ≠ Phase.deliver r buf) →
      (run cfg sched).delivered = cfg.delivered
  | [], _, _, _ => rfl
  | i :: sched, cfg, hd, ht => by
      obtain ⟨hd', hdel, ht'⟩ := step_frozen cfg i hd ht
      have ih := run_frozen sched (step cfg i) hd' ht'
      simpa [run, List.foldl_cons, hdel] using ih

/-! ### Lemmas: where the flattening writes each key -/

theorem toHeaders_cons (p : String × HVal) (obj : List (String × HVal)) :
    toHeaders (p :: obj) =
      (match p.2 with
       | HVal.single v => [(p.1, v)]
       | HVal.multi vs => maskWrites p.1 0 vs) ++ toHeaders obj := by
  simp [toHeaders]

theorem lastWrite_toHeaders_none (key : String) (hkey : noUpperStr key) :
    ∀ obj : List (String × HVal), (∀ p ∈ obj, p.1 ≠ key) →
      lastWrite (toHeaders obj) key = none
  | [], _ => rfl
  | (k₀, hv) :: obj, h => by
      have ih := lastWrite_toHeaders_none key hkey obj fun p hp => h p (by simp [hp])
      have hk0 : k₀ ≠ key := h (k₀, hv) (by simp)
      rw [toHeaders_cons, lastWrite_append, ih]
      cases hv with
      | single v => simp [lastWrite, hk0]
      | multi vs => simpa using lastWrite_maskWrites_ne k₀ key hkey hk0 vs 0

theorem lastWrite_toHeaders (key v : String) :
    ∀ obj : List (String × HVal),
      (obj.map Prod.fst).Nodup → (∀ p ∈ obj, noUpperStr p.1) →
      (key, HVal.single v) ∈ obj →
      lastWrite (toHeaders obj) key = some v
  | [], _, _, hmem => by simp at hmem
  | (k₀, hv) :: obj, hnd, hlow, hmem => by
      have hkeylow : noUpperStr key := hlow (key, HVal.single v) hmem
      simp only [List.map_cons, List.nodup_cons] at hnd
      rw [toHeaders_cons, lastWrite_append]
      rcases List.mem_cons.mp hmem with heq | htail
      · injection heq with hk hhv
        subst hk; subst hhv
        have hnone : lastWrite (toHeaders obj) key = none := by
          refine lastWrite_toHeaders_none key hkeylow obj fun p hp hpk => ?_
          exact hnd.1 (hpk ▸ List.mem_map_of_mem Prod.fst hp)
        rw [hnone]
        simp [lastWrite]
      · have ih := lastWrite_toHeaders key v obj hnd.2
          (fun p hp => hlow p (by simp [hp])) htail
        rw [ih]

theorem mvLookup_mapped (f : String → List String) (k : String) :
    ∀ ks : List String, k ∈ ks →
      mvLookup (ks.map fun k' => (k', f k')) k = some (f k)
  | [], h => by simp at h
  | k₀ :: ks, h => by
      by_cases hk : k₀ = k
      · subst hk; simp [mvLookup]
      · have hmem : k ∈ ks := by
          rcases List.mem_cons.mp h with h' | h'
          · exact absurd h'.symm hk
          · exact h'
        simp [mvLookup, hk, mvLookup_mapped f k ks hmem]

theorem filterMap_filter_isSome (f : Char → Option Nat) :
    ∀ l : List Char, (l.filter fun a => (f a).isSome).filterMap f = l.filterMap f
  | [] => rfl
  | a :: l => by
      have ih := filterMap_filter_isSome f l
      cases hf : f a <;> simp [List.filter_cons, List.filterMap_cons, hf, ih]

/-! ### The claims -/

/-- C1: the claim states that the platform callback is invoked exactly
once per invocation no matter how the completion triggers race.  The
code violates this: `didRespond` is read synchronously when
`sendResponse` is entered but only set inside the `.then` continuation
that runs after the asynchronous body drain, so two triggers whose guard
checks both happen before either drain continuation each deliver a
result.  The schedule below is realizable: the middleware queues a
microtask that emits the request's abort event and then synchronously
returns a 200 response — the abort trigger's check (task 0) and the
resolution trigger's check (task 1) both run before either queued drain
continuation, and both continuations then invoke the callback, so two
results (444, then 200) are delivered. -/
theorem claim_C1_double_delivery :
    (run (initConfig [Resp.noBody 444, Resp.ofText 200 "x"]) [0, 1, 0, 1]).delivered =
      [{ statusCode := 444, headers := [], body := "", isBase64Encoded := false },
       { statusCode := 200
         headers := [("content-type", "text/plain"), ("content-length", "1")]
         body := "x", isBase64Encoded := false }] := by decide

/-- C2: a GET /test invocation whose middleware falls through to the
fallback handler delivers a 404 result with body "Cannot GET /test",
plain-text content type, content length "16", a null callback error and
no base64 flag. -/
theorem claim_C2_fallback_404 :
    handleEvent appNext {} testEvent =
      { callbackErr := none
        result :=
          { statusCode := 404
            headers := [("content-type", "text/plain"), ("content-length", "16")]
            body := "Cannot GET /test"
            isBase64Encoded := false }
        logged := [] } := by decide

/-- C3 counterexample: the claim covers middleware that "throws or
rejects", but a synchronous throw from the middleware function is not
caught anywhere — `Promise.resolve(app(req, finalhandler(req)))` only
converts an already-created rejected promise — so the handler function
itself throws and the platform callback is never invoked with a result. -/
theorem claim_C3_sync_throw_escapes :
    handleEventS (fun _ _ => SyncOutcome.thrown { message := "x" }) {} testEvent =
      Except.error { message := "x" } := rfl

/-- C3 amended: for middleware that rejects (fails through its promise),
the invocation always completes through the callback with a null error
argument; in particular a rejection with the "boom" error in
non-production mode delivers a 500, non-base64 result whose body
contains "boom", and logs exactly that one error. -/
theorem claim_C3_rejection_mapped :
    (∀ (e : Event) (opts : Options) (er : Err),
        (handleEvent (fun _ _ => AppOutcome.err er) opts e).callbackErr = none) ∧
    (∀ e : Event,
        handleEvent (fun _ _ => AppOutcome.err boomErr) {} e =
          { callbackErr := none
            result :=
              { statusCode := 500
                headers := [("content-type", "text/plain"), ("content-length", "22")]
                body := "Error: boom\n    at app"
                isBase64Encoded := false }
            logged := [boomErr] }) ∧
    containsStr "Error: boom\n    at app" "boom" = true := by
  refine ⟨fun e opts er => rfl, fun e => rfl, by decide⟩

/-- C4 counterexample: the claim asks that every multi-valued header be
reconstructible from the flattened object, with the case-duplication
encoding giving each occurrence a distinct casing variant.  A key has
only as many casing variants as two to the power of its letters, so a
one-letter key with three values must collide (pigeonhole): occurrences
0 and 2 of key "x" both mask to "x", the later write overwrites the
earlier one, and the value "1" is absent from the flattened object
entirely. -/
theorem claim_C4_casing_collision :
    mask "x" 0 = mask "x" 2 ∧
    jsObject (toHeaders [("x", HVal.multi ["1", "2", "3"])]) = [("x", "3"), ("X", "2")] ∧
    "1" ∉ (jsObject (toHeaders [("x", HVal.multi ["1", "2", "3"])])).map Prod.snd := by
  decide

/-- C4 amended: the multi-valued encoding always reconstructs the
ordered value list of every key; the case-duplication encoding
reconstructs each value at its masked key provided the masked casing
variants of the key are pairwise distinct (as they are for Set-Cookie
with three values). -/
theorem claim_C4_header_reconstruction :
    (∀ (key : String) (vs : List String),
        ((List.range vs.length).map (mask key)).Nodup →
        ∀ (i : Nat) (v : String), vs.get? i = some v →
          jsLookup (jsObject (toHeaders [(key, HVal.multi vs)])) (mask key i) = some v) ∧
    (∀ (h : List (String × List String)) (k : String), k ∈ hdrKeys h →
        mvLookup (toMultiValueHeaders h) k = some (getAll h k)) := by
  constructor
  · intro key vs hnd i v hget
    rw [jsLookup_jsObject]
    have hws : toHeaders [(key, HVal.multi vs)] = maskWrites key 0 vs := by
      simp [toHeaders]
    rw [hws]
    refine lastWrite_nodup (mask key i) v (maskWrites key 0 vs) ?_ ?_
    · rw [maskWrites_keys, ← List.range_eq_range']
      exact hnd
    · simpa using maskWrites_mem key v vs 0 i hget
  · intro h k hk
    exact mvLookup_mapped (getAll h) k (hdrKeys h) hk

/-- C4 witness: the Set-Cookie example of the spec, three values under
one key, reconstructed from both encodings. -/
theorem claim_C4_header_reconstruction_witness :
    jsLookup (jsObject (toHeaders [("set-cookie", HVal.multi ["a=a", "b=b", "c=c"])]))
        (mask "set-cookie" 1) = some "b=b" ∧
    mvLookup (toMultiValueHeaders [("set-cookie", ["a=a", "b=b", "c=c"])]) "set-cookie" =
      some (getAll [("set-cookie", ["a=a", "b=b", "c=c"])] "set-cookie") := by
  refine ⟨?_, ?_⟩
  · exact claim_C4_header_reconstruction.1 "set-cookie" ["a=a", "b=b", "c=c"]
      (by decide) 1 "b=b" (by decide)
  · exact claim_C4_header_reconstruction.2 [("set-cookie", ["a=a", "b=b", "c=c"])]
      "set-cookie" (by decide)

/-- C5: whenever the abort trigger's guard check and delivery both
happen before any other completion attempt's guard check, the one
delivered result is the canned 444 response with empty headers, empty
body and no base64 flag — any number of other triggers and any
continuation of the schedule deliver nothing further. -/
theorem claim_C5_abort_444 (others : List Resp) (rest : List Nat) :
    (run (initConfig (Resp.noBody 444 :: others)) (0 :: 0 :: rest)).delivered =
        [toResult {} (Resp.noBody 444) []] ∧
    (toResult {} (Resp.noBody 444) []).statusCode = 444 ∧
    (toResult {} (Resp.noBody 444) []).body = "" ∧
    (toResult {} (Resp.noBody 444) []).headers = [] ∧
    (toResult {} (Resp.noBody 444) []).isBase64Encoded = false := by
  refine ⟨?_, by decide, by decide, by decide, by decide⟩
  have hcfg : step (step (initConfig (Resp.noBody 444 :: others)) 0) 0 =
      { didRespond := true
        tasks := Phase.done :: others.map Phase.check
        delivered := [toResult {} (Resp.noBody 444) []] } := rfl
  have hrun : run (initConfig (Resp.noBody 444 :: others)) (0 :: 0 :: rest) =
      run (step (step (initConfig (Resp.noBody 444 :: others)) 0) 0) rest := rfl
  rw [hrun, hcfg]
  refine run_frozen rest _ rfl fun p hp r buf => ?_
  rcases List.mem_cons.mp hp with hdone | hcheck
  · subst hdone; exact fun h => Phase.noConfusion h
  · obtain ⟨q, _, hq⟩ := List.mem_map.mp hcheck
    subst hq; exact fun h => Phase.noConfusion h

/-- C6: the normalized request's body is exactly the event body decoded
as base64 when the flag is set and as UTF-8 text otherwise, and is
absent when the event body is null. -/
theorem claim_C6_body_decoding (e : Event) :
    (translateEvent e).body =
      e.body.map fun s => if e.isBase64Encoded then base64Decode s else utf8Encode s := by
  obtain ⟨path, method, body, b64, hdrs, q, ip⟩ := e
  cases body <;> rfl

/-- C7: when the binary predicate holds, the result body is the base64
encoding of the drained bytes and decodes back to exactly those bytes,
with the base64 flag set; without an isBinary option the default
predicate is false on every response, the body is the UTF-8 decoding of
the buffer, and the flag is clear. -/
theorem claim_C7_binary_roundtrip :
    (∀ (opts : Options) (res : Resp) (buf : List Nat),
        res.body = Except.ok buf → (∀ x ∈ buf, x < 256) →
        effIsBinary opts res = true →
          (toResult opts res buf).body = base64Encode buf ∧
          base64Decode (toResult opts res buf).body = buf ∧
          (toResult opts res buf).isBase64Encoded = true) ∧
    (∀ (opts : Options) (res : Resp) (buf : List Nat), opts.isBinary = none →
        effIsBinary opts res = false ∧
        (toResult opts res buf).body = utf8Decode buf ∧
        (toResult opts res buf).isBase64Encoded = false) := by
  constructor
  · intro opts res buf _ h256 hbin
    refine ⟨by simp [toResult, hbin], ?_, by simp [toResult, hbin]⟩
    simp only [toResult, hbin, if_true]
    exact base64_decode_encode buf h256
  · intro opts res buf hnone
    have hfalse : effIsBinary opts res = false := by simp [effIsBinary, hnone]
    exact ⟨hfalse, by simp [toResult, hfalse], by simp [toResult, hfalse]⟩

/-- C7 witness: a three-byte binary buffer round-trips through the
base64 path, and the default options encode as text. -/
theorem claim_C7_binary_roundtrip_witness :
    ((toResult { isBinary := some fun _ => true }
        { statusCode := 200, headersObj := [], body := Except.ok [0, 255, 7] }
        [0, 255, 7]).body = base64Encode [0, 255, 7] ∧
      base64Decode (toResult { isBinary := some fun _ => true }
        { statusCode := 200, headersObj := [], body := Except.ok [0, 255, 7] }
        [0, 255, 7]).body = [0, 255, 7] ∧
      (toResult { isBinary := some fun _ => true }
        { statusCode := 200, headersObj := [], body := Except.ok [0, 255, 7] }
        [0, 255, 7]).isBase64Encoded = true) ∧
    (effIsBinary {} { statusCode := 200, headersObj := [], body := Except.ok [0, 255, 7] } = false ∧
      (toResult {} { statusCode := 200, headersObj := [], body := Except.ok [0, 255, 7] }
        [0, 255, 7]).body = utf8Decode [0, 255, 7] ∧
      (toResult {} { statusCode := 200, headersObj := [], body := Except.ok [0, 255, 7] }
        [0, 255, 7]).isBase64Encoded = false) := by
  refine ⟨?_, ?_⟩
  · exact claim_C7_binary_roundtrip.1 { isBinary := some fun _ => true }
      { statusCode := 200, headersObj := [], body := Except.ok [0, 255, 7] }
      [0, 255, 7] rfl (by decide) rfl
  · exact claim_C7_binary_roundtrip.2 {}
      { statusCode := 200, headersObj := [], body := Except.ok [0, 255, 7] }
      [0, 255, 7] rfl

/-- C8: the Event Translator never throws — with each Node primitive's
exception behaviour made explicit, translation of every event succeeds
and agrees with the direct translation; and malformed base64 degrades:
the lenient decoder's result on any string is the result on the string
with all foreign characters dropped. -/
theorem claim_C8_translation_total :
    (∀ e : Event, translateEventE e = Except.ok (translateEvent e)) ∧
    (∀ s : String,
        base64Decode s =
          base64Decode (String.mk (s.data.filter fun c => (sextetOf c).isSome))) := by
  constructor
  · intro e
    obtain ⟨path, method, body, b64, hdrs, q, ip⟩ := e
    cases body <;> rfl
  · intro s
    unfold base64Decode
    rw [show (String.mk (s.data.filter fun c => (sextetOf c).isSome)).data =
          s.data.filter fun c => (sextetOf c).isSome from rfl]
    rw [filterMap_filter_isSome]

/-- C9: before the middleware runs, the request is marked started and
finished and its transferred byte count equals the decoded body's length
(zero when the event carries no body). -/
theorem claim_C9_request_marked (e : Event) :
    (requestGivenToApp e).started = true ∧
    (requestGivenToApp e).finished = true ∧
    (requestGivenToApp e).bytesTransferred =
      (match e.body with
       | none => 0
       | some s => (decodeBodyField e.isBase64Encoded s).length) := by
  refine ⟨rfl, rfl, ?_⟩
  cases hb : e.body <;>
    simp [requestGivenToApp, markRequest, translateEvent, hb]

/-- C10: the flattening case-masks only array-valued keys: in a headers
object with pairwise-distinct, lowercase keys (the shape
Headers.asObject produces), every key carrying a single value is mapped
by the flattened object, under the unchanged key string, to exactly that
value. -/
theorem claim_C10_single_value_unmasked (obj : List (String × HVal)) (key v : String)
    (hnd : (obj.map Prod.fst).Nodup)
    (hlow : ∀ p ∈ obj, noUpperStr p.1)
    (hmem : (key, HVal.single v) ∈ obj) :
    jsLookup (jsObject (toHeaders obj)) key = some v := by
  rw [jsLookup_jsObject]
  exact lastWrite_toHeaders key v obj hnd hlow hmem

/-- C10 witness: a typical flattened object with one single-valued and
one array-valued key. -/
theorem claim_C10_single_value_unmasked_witness :
    jsLookup (jsObject (toHeaders
        [("content-type", HVal.single "text/plain"),
         ("set-cookie", HVal.multi ["a=a", "b=b"])])) "content-type" =
      some "text/plain" := by
  exact claim_C10_single_value_unmasked
    [("content-type", HVal.single "text/plain"),
     ("set-cookie", HVal.multi ["a=a", "b=b"])]
    "content-type" "text/plain" (by decide) (by decide) (by decide)

end ServieLambda
